import Mathlib

/-!
Verification of the portfolio backend (`backend/server.py`): the position
aggregator, valuation engine, summary, watchlist enrichment, close-position
deletion, symbol normalization and the query read caps.

Numbers (Python floats treated as exact reals by the spec) are modelled as `ℚ`;
timestamps as `Int`; the Mongo trade store as a `List Trade` in insertion
order; Python dicts as insertion-ordered association lists (`List (String × _)`)
with key lookup `lookupPos`; a quote fetch as a function
`String → Option StockPrice`, where `none` covers both a missing key and the
`None` stored by `get_stock_data` on a per-symbol error.
-/

/-- Python `str.lower()` (ASCII range, which is all that `"buy"/"sell"` needs). -/
def strLower (s : String) : String := ⟨s.data.map Char.toLower⟩

/-- Python `str.upper()` (ASCII range). -/
def strUpper (s : String) : String := ⟨s.data.map Char.toUpper⟩

/-- A stored trade record (model of the `Trade` pydantic model; `id` and
`created_at` are irrelevant to every claim and omitted). -/
structure Trade where
  user_id : String
  symbol : String
  quantity : ℚ
  price : ℚ
  trade_type : String
  trade_date : Int
deriving DecidableEq, Repr

/-- The request body of a trade submission (model of `TradeCreate`). -/
structure TradeCreate where
  symbol : String
  quantity : ℚ
  price : ℚ
  trade_type : String
  trade_date : Int
deriving DecidableEq, Repr

/-- One accumulator entry of the `positions` dict in `get_portfolio`. -/
structure Position where
  total_quantity : ℚ
  total_cost : ℚ
deriving DecidableEq, Repr

/-- A per-symbol portfolio entry (model of the `Portfolio` pydantic model). -/
structure Portfolio where
  symbol : String
  total_quantity : ℚ
  avg_price : ℚ
  current_price : ℚ
  market_value : ℚ
  pnl : ℚ
  pnl_percentage : ℚ
deriving DecidableEq, Repr

/-- The record `get_portfolio_summary` returns. -/
structure Summary where
  total_value : ℚ
  total_cost : ℚ
  total_pnl : ℚ
  total_pnl_percentage : ℚ
  positions_count : Nat
deriving DecidableEq, Repr

/-- One symbol's quote data as produced by `get_stock_data` (model of
`StockPrice`; `last_updated` omitted). -/
structure StockPrice where
  current_price : ℚ
  change : ℚ
  change_percent : ℚ
  volume : Int
deriving DecidableEq, Repr

/-- A stored watchlist record (model of `WatchlistItem`). -/
structure WatchlistItem where
  id : String
  user_id : String
  symbol : String
  added_at : Int
deriving DecidableEq, Repr

/-- One element of the list `get_watchlist` returns: the stored fields plus
price fields that are explicitly `None` when no quote is available. -/
structure WatchlistEntry where
  id : String
  symbol : String
  added_at : Int
  current_price : Option ℚ
  change : Option ℚ
  change_percent : Option ℚ
deriving DecidableEq, Repr

/-- The body of the `for trade_data in trades` loop of `get_portfolio`
(lines 415-420): add the quantity and `quantity * price` on `"buy"`
(case-insensitive), subtract them on `"sell"`, leave the accumulators
unchanged on any other `trade_type` (no error is raised). -/
def applyTradeType (p : Position) (t : Trade) : Position :=
  if strLower t.trade_type = "buy" then
    { total_quantity := p.total_quantity + t.quantity,
      total_cost := p.total_cost + t.quantity * t.price }
  else if strLower t.trade_type = "sell" then
    { total_quantity := p.total_quantity - t.quantity,
      total_cost := p.total_cost - t.quantity * t.price }
  else p

/-- The dict upsert of `get_portfolio` lines 412-420: `positions[symbol]` is
created as `{'total_quantity': 0, 'total_cost': 0}` when absent (also for an
unrecognized `trade_type`), then updated in place; a fresh key is appended in
insertion order, as a Python dict does. -/
def upsertPosition (sym : String) (t : Trade) : List (String × Position) → List (String × Position)
  | [] => [(sym, applyTradeType ⟨0, 0⟩ t)]
  | (k, v) :: rest =>
    if k = sym then (k, applyTradeType v t) :: rest
    else (k, v) :: upsertPosition sym t rest

/-- The `positions` dict after the whole loop of `get_portfolio` (lines 404-420). -/
def calcPositions (trades : List Trade) : List (String × Position) :=
  trades.foldl (fun d t => upsertPosition t.symbol t d) []

/-- `active_positions` (line 423): the dict comprehension keeping the symbols
with `total_quantity > 0`. -/
def activePositions (trades : List Trade) : List (String × Position) :=
  (calcPositions trades).filter (fun kv => 0 < kv.2.total_quantity)

/-- Dict key lookup on the association-list model. -/
def lookupPos (s : String) : List (String × Position) → Option Position
  | [] => none
  | (k, v) :: rest => if k = s then some v else lookupPos s rest

/-- The keys of the association-list model of a dict. -/
def keysOf (d : List (String × Position)) : List String := d.map Prod.fst

/-- Spec-side wording (§4.1): the signed quantity contribution of one trade. -/
def spec_qty_delta (t : Trade) : ℚ :=
  if strLower t.trade_type = "buy" then t.quantity
  else if strLower t.trade_type = "sell" then -t.quantity
  else 0

/-- Spec-side wording (§4.1): the signed cost contribution of one trade. -/
def spec_cost_delta (t : Trade) : ℚ :=
  if strLower t.trade_type = "buy" then t.quantity * t.price
  else if strLower t.trade_type = "sell" then -(t.quantity * t.price)
  else 0

/-- Spec-side wording (§4.1): per-symbol total quantity as a plain sum. -/
def spec_total_quantity (trades : List Trade) (s : String) : ℚ :=
  ((trades.filter (fun t => t.symbol == s)).map spec_qty_delta).sum

/-- Spec-side wording (§4.1): per-symbol total cost as a plain sum. -/
def spec_total_cost (trades : List Trade) (s : String) : ℚ :=
  ((trades.filter (fun t => t.symbol == s)).map spec_cost_delta).sum

theorem applyTradeType_eq (p : Position) (t : Trade) :
    applyTradeType p t =
      ⟨p.total_quantity + spec_qty_delta t, p.total_cost + spec_cost_delta t⟩ := by
  unfold applyTradeType spec_qty_delta spec_cost_delta
  split_ifs with h1 h2 <;> simp [Position.mk.injEq, sub_eq_add_neg]

theorem lookupPos_upsertPosition (s sym : String) (t : Trade) (d : List (String × Position)) :
    lookupPos s (upsertPosition sym t d) =
      if s = sym then some (applyTradeType ((lookupPos s d).getD ⟨0, 0⟩) t)
      else lookupPos s d := by
  induction d with
  | nil =>
    by_cases h : s = sym <;> simp [upsertPosition, lookupPos, h, eq_comm]
  | cons kv rest ih =>
    obtain ⟨k, v⟩ := kv
    by_cases hk : k = sym
    · subst hk
      by_cases hs : s = k
      · subst hs
        simp [upsertPosition, lookupPos]
      · have hks : ¬ k = s := fun h => hs h.symm
        simp [upsertPosition, lookupPos, hs, hks]
    · by_cases hks : k = s
      · subst hks
        simp [upsertPosition, lookupPos, hk]
      · simp [upsertPosition, lookupPos, hk, hks, ih]

theorem lookupPos_foldl_upsert (l : List Trade) (d : List (String × Position)) (s : String) :
    lookupPos s (l.foldl (fun d t => upsertPosition t.symbol t d) d) =
      match lookupPos s d with
      | some p => some ⟨p.total_quantity + spec_total_quantity l s,
                        p.total_cost + spec_total_cost l s⟩
      | none =>
        if l.any (fun t => t.symbol == s)
        then some ⟨spec_total_quantity l s, spec_total_cost l s⟩
        else none := by
  induction l generalizing d with
  | nil =>
    cases h : lookupPos s d <;>
      simp [spec_total_quantity, spec_total_cost, h]
  | cons t l ih =>
    rw [List.foldl_cons, ih, lookupPos_upsertPosition]
    by_cases hsym : s = t.symbol
    · have hts : (t.symbol == s) = true := by simp [hsym]
      cases h : lookupPos s d <;>
        simp [h, hsym, applyTradeType_eq, spec_total_quantity, spec_total_cost,
          List.filter_cons, hts, add_assoc]
    · have hts : (t.symbol == s) = false := by
        simp; intro h; exact hsym h.symm
      cases h : lookupPos s d <;>
        simp [h, hsym, spec_total_quantity, spec_total_cost, List.filter_cons, hts]

theorem lookupPos_calcPositions (l : List Trade) (s : String) :
    lookupPos s (calcPositions l) =
      if l.any (fun t => t.symbol == s)
      then some ⟨spec_total_quantity l s, spec_total_cost l s⟩
      else none := by
  have h := lookupPos_foldl_upsert l [] s
  simpa [calcPositions, lookupPos] using h

theorem keysOf_upsertPosition (sym : String) (t : Trade) (d : List (String × Position)) :
    keysOf (upsertPosition sym t d) =
      if sym ∈ keysOf d then keysOf d else keysOf d ++ [sym] := by
  induction d with
  | nil => simp [upsertPosition, keysOf]
  | cons kv rest ih =>
    obtain ⟨k, v⟩ := kv
    by_cases hk : k = sym
    · subst hk
      simp [upsertPosition, keysOf]
    · have hsk : ¬ sym = k := fun h => hk h.symm
      have hup : keysOf (upsertPosition sym t ((k, v) :: rest)) =
          k :: keysOf (upsertPosition sym t rest) := by
        simp [upsertPosition, hk, keysOf]
      have hcons : keysOf ((k, v) :: rest) = k :: keysOf rest := by simp [keysOf]
      rw [hup, ih, hcons]
      by_cases hmem : sym ∈ keysOf rest
      · rw [if_pos hmem, if_pos (List.mem_cons_of_mem k hmem)]
      · have hnc : sym ∉ k :: keysOf rest := by
          intro hc
          rcases List.mem_cons.mp hc with h1 | h1
          · exact hsk h1
          · exact hmem h1
        rw [if_neg hmem, if_neg hnc, List.cons_append]

theorem nodup_keysOf_upsertPosition (sym : String) (t : Trade) (d : List (String × Position))
    (h : (keysOf d).Nodup) : (keysOf (upsertPosition sym t d)).Nodup := by
  rw [keysOf_upsertPosition]
  split_ifs with hm
  · exact h
  · simp [List.nodup_append, h, hm]

theorem nodup_keysOf_calcPositions (l : List Trade) : (keysOf (calcPositions l)).Nodup := by
  suffices h : ∀ d : List (String × Position), (keysOf d).Nodup →
      (keysOf (l.foldl (fun d t => upsertPosition t.symbol t d) d)).Nodup by
    exact h [] (by simp [keysOf])
  induction l with
  | nil => intro d hd; exact hd
  | cons t l ih =>
    intro d hd
    exact ih _ (nodup_keysOf_upsertPosition t.symbol t d hd)

theorem lookupPos_eq_none_iff (s : String) (d : List (String × Position)) :
    lookupPos s d = none ↔ s ∉ keysOf d := by
  induction d with
  | nil => simp [lookupPos, keysOf]
  | cons kv rest ih =>
    obtain ⟨k, v⟩ := kv
    by_cases h : k = s
    · subst h
      simp [lookupPos, keysOf]
    · have hsk : ¬ s = k := fun hh => h hh.symm
      have h1 : lookupPos s ((k, v) :: rest) = lookupPos s rest := by
        simp [lookupPos, h]
      have h2 : (s ∈ keysOf ((k, v) :: rest)) ↔ s ∈ keysOf rest := by
        simp [keysOf, hsk]
      rw [h1, ih, not_congr h2]

theorem keysOf_filter_subset (P : String × Position → Bool) (d : List (String × Position)) :
    keysOf (d.filter P) ⊆ keysOf d := by
  intro x hx
  simp only [keysOf, List.mem_map] at hx ⊢
  obtain ⟨kv, hkv, rfl⟩ := hx
  exact ⟨kv, (List.mem_filter.mp hkv).1, rfl⟩

theorem lookupPos_filter (P : String × Position → Bool) (d : List (String × Position))
    (hd : (keysOf d).Nodup) (s : String) :
    lookupPos s (d.filter P) =
      match lookupPos s d with
      | some v => if P (s, v) then some v else none
      | none => none := by
  induction d with
  | nil => simp [lookupPos]
  | cons kv rest ih =>
    obtain ⟨k, v⟩ := kv
    have hd' : k ∉ List.map Prod.fst rest ∧ (List.map Prod.fst rest).Nodup := by
      have h0 := hd
      simp only [keysOf, List.map_cons] at h0
      exact List.nodup_cons.mp h0
    have hk : k ∉ keysOf rest := hd'.1
    have hrest : (keysOf rest).Nodup := hd'.2
    by_cases hks : k = s
    · subst hks
      cases hP : P (k, v)
      · have hnone : lookupPos k (rest.filter P) = none := by
          rw [lookupPos_eq_none_iff]
          exact fun hmem => hk (keysOf_filter_subset P rest hmem)
        simp [List.filter_cons, hP, lookupPos, hnone]
      · simp [List.filter_cons, hP, lookupPos]
    · cases hP : P (k, v) <;>
        simp [List.filter_cons, hP, lookupPos, hks, ih hrest]

theorem spec_total_quantity_eq_zero (l : List Trade) (s : String)
    (h : l.any (fun t => t.symbol == s) = false) :
    spec_total_quantity l s = 0 := by
  have hf : l.filter (fun t => t.symbol == s) = [] := by
    rw [List.filter_eq_nil_iff]
    intro a ha
    exact fun hb => (List.any_eq_false.mp h a ha) hb
  simp [spec_total_quantity, hf]

theorem lookupPos_activePositions (trades : List Trade) (s : String) :
    lookupPos s (activePositions trades) =
      if 0 < spec_total_quantity trades s
      then some ⟨spec_total_quantity trades s, spec_total_cost trades s⟩
      else none := by
  rw [activePositions, lookupPos_filter _ _ (nodup_keysOf_calcPositions trades) s,
    lookupPos_calcPositions]
  cases hany : trades.any (fun t => t.symbol == s)
  · simp [spec_total_quantity_eq_zero trades s hany]
  · simp

/-- The body of the portfolio loop of `get_portfolio` (lines 432-450) for one
symbol with a present quote: `avg_price = total_cost / total_quantity` behind
the `!= 0` guard, `market_value = total_quantity * current_price`,
`pnl = market_value - cost_basis`, `pnl_percentage = pnl / cost_basis * 100`
behind the `cost_basis != 0` guard. -/
def valueEntry (symbol : String) (position : Position) (current_data : StockPrice) : Portfolio :=
  let avg_price := if position.total_quantity ≠ 0
    then position.total_cost / position.total_quantity else 0
  let current_price := current_data.current_price
  let market_value := position.total_quantity * current_price
  let cost_basis := position.total_cost
  let pnl := market_value - cost_basis
  let pnl_percentage := if cost_basis ≠ 0 then pnl / cost_basis * 100 else 0
  { symbol := symbol, total_quantity := position.total_quantity, avg_price := avg_price,
    current_price := current_price, market_value := market_value, pnl := pnl,
    pnl_percentage := pnl_percentage }

/-- The valuation loop of `get_portfolio` (lines 431-450): one `Portfolio`
entry per active position whose symbol has a quote present and non-`None`;
a symbol whose `stock_data.get` is falsy is skipped entirely. -/
def value_positions (active : List (String × Position))
    (quotes : String → Option StockPrice) : List Portfolio :=
  active.filterMap (fun kv => (quotes kv.1).map (valueEntry kv.1 kv.2))

/-- `get_portfolio` (lines 399-452) as a function of the fetched trades and the
quote snapshot. The source's early `return []` when `active_positions` is empty
coincides with the general path, since filtering an empty list yields `[]`. -/
def get_portfolio (trades : List Trade) (quotes : String → Option StockPrice) : List Portfolio :=
  value_positions (activePositions trades) quotes

/-- `get_portfolio_summary` (lines 469-493) applied to an already-computed
portfolio list: the all-zero record for an empty portfolio, otherwise the
sums, differences and the guarded percentage. -/
def summarize (portfolio : List Portfolio) : Summary :=
  if portfolio.isEmpty then ⟨0, 0, 0, 0, 0⟩
  else
    let total_value := (portfolio.map (fun p => p.market_value)).sum
    let total_cost := (portfolio.map (fun p => p.total_quantity * p.avg_price)).sum
    let total_pnl := total_value - total_cost
    let total_pnl_percentage := if total_cost ≠ 0 then total_pnl / total_cost * 100 else 0
    ⟨total_value, total_cost, total_pnl, total_pnl_percentage, portfolio.length⟩

/-- `get_portfolio_summary` end to end: it calls `get_portfolio` on the same
user's trades and summarizes the result. -/
def get_portfolio_summary (trades : List Trade)
    (quotes : String → Option StockPrice) : Summary :=
  summarize (get_portfolio trades quotes)

/-- `create_trade` (lines 373-384): the stored record keeps the submitted
fields, uppercases the symbol, and attaches the authenticated user's id; no
validation of quantity, price or trade_type is performed. -/
def create_trade (uid : String) (trade : TradeCreate) : Trade :=
  { user_id := uid, symbol := strUpper trade.symbol, quantity := trade.quantity,
    price := trade.price, trade_type := trade.trade_type, trade_date := trade.trade_date }

/-- `add_to_watchlist` (lines 496-510): reject (`None` here models the 400
response) when the uppercased symbol is already present for this user,
otherwise store the uppercased symbol. -/
def add_to_watchlist (watchlist : List WatchlistItem) (uid newId symbol : String)
    (now : Int) : Option WatchlistItem :=
  if watchlist.any (fun w => w.symbol == strUpper symbol && w.user_id == uid) then none
  else some { id := newId, user_id := uid, symbol := strUpper symbol, added_at := now }

/-- The symbol list `get_multiple_stocks` (lines 367-370) passes to the quote
provider: each requested symbol uppercased. -/
def get_multiple_stocks_request (symbols : List String) : List String :=
  symbols.map strUpper

/-- The enrichment loop of `get_watchlist` (lines 512-533): one output entry
per watchlist item, price fields explicitly `None` when `stock_data.get` is
falsy. The source's early `return []` for an empty watchlist coincides with
mapping over the empty list. -/
def get_watchlist (watchlist : List WatchlistItem)
    (quotes : String → Option StockPrice) : List WatchlistEntry :=
  watchlist.map (fun item =>
    { id := item.id, symbol := item.symbol, added_at := item.added_at,
      current_price := (quotes item.symbol).map (fun q => q.current_price),
      change := (quotes item.symbol).map (fun q => q.change),
      change_percent := (quotes item.symbol).map (fun q => q.change_percent) })

/-- `close_position` (lines 454-466): `delete_many` removes every trade whose
symbol is the uppercased path symbol and whose user is the caller; the second
component is `deleted_count`. -/
def close_position (store : List Trade) (uid sym : String) : List Trade × Nat :=
  (store.filter (fun t => !(t.symbol == strUpper sym && t.user_id == uid)),
   (store.filter (fun t => t.symbol == strUpper sym && t.user_id == uid)).length)

/-- `db.trades.find({"user_id": user.id})`: the owner's trades in store order. -/
def tradesOf (store : List Trade) (uid : String) : List Trade :=
  store.filter (fun t => t.user_id == uid)

/-- `db.watchlist.find({"user_id": user.id})`: the owner's watchlist records. -/
def watchlistOf (wstore : List WatchlistItem) (uid : String) : List WatchlistItem :=
  wstore.filter (fun w => w.user_id == uid)

/-- The `/portfolio` route (lines 399-401 feeding 404-452): fetch the owner's
trades capped by `.to_list(1000)`, then aggregate and value them. -/
def get_portfolio_route (store : List Trade) (uid : String)
    (quotes : String → Option StockPrice) : List Portfolio :=
  get_portfolio ((tradesOf store uid).take 1000) quotes

/-- The `/portfolio/summary` route (lines 469-493): it calls the portfolio
route on the same data and summarizes. -/
def get_portfolio_summary_route (store : List Trade) (uid : String)
    (quotes : String → Option StockPrice) : Summary :=
  summarize (get_portfolio_route store uid quotes)

/-- The `/trades` route (lines 386-389): the owner's trades sorted by
`trade_date` descending, capped by `.to_list(1000)`. -/
def get_trades_route (store : List Trade) (uid : String) : List Trade :=
  ((tradesOf store uid).mergeSort (fun a b => b.trade_date ≤ a.trade_date)).take 1000

/-- The `/watchlist` route (lines 512-514 feeding the enrichment loop): the
owner's watchlist sorted by `added_at` descending, capped by `.to_list(100)`. -/
def get_watchlist_route (wstore : List WatchlistItem) (uid : String)
    (quotes : String → Option StockPrice) : List WatchlistEntry :=
  get_watchlist (((watchlistOf wstore uid).mergeSort
    (fun a b => b.added_at ≤ a.added_at)).take 100) quotes

theorem value_positions_missing (active : List (String × Position))
    (quotes : String → Option StockPrice) (s : String) (h : quotes s = none) :
    (∀ e ∈ value_positions active quotes, e.symbol ≠ s) ∧
    value_positions active quotes =
      value_positions (active.filter (fun kv => kv.1 != s)) quotes := by
  constructor
  · intro e he heq
    obtain ⟨kv, hkv, hmap⟩ := List.mem_filterMap.mp he
    cases hq : quotes kv.1 with
    | none => rw [hq] at hmap; exact Option.noConfusion hmap
    | some q =>
      rw [hq] at hmap
      have he' : valueEntry kv.1 kv.2 q = e := Option.some.inj hmap
      have hsym : kv.1 = s := by rw [← he'] at heq; exact heq
      rw [hsym, h] at hq
      exact Option.noConfusion hq
  · induction active with
    | nil => rfl
    | cons kv rest ih =>
      by_cases hkv : kv.1 = s
      · have hq : quotes kv.1 = none := by rw [hkv]; exact h
        have hbne : (kv.1 != s) = false := by simp [hkv]
        simp only [value_positions, List.filter_cons, hbne, Bool.false_eq_true, if_false,
          List.filterMap_cons, hq, Option.map_none']
        simpa [value_positions] using ih
      · have hbne : (kv.1 != s) = true := by simp [hkv]
        simp only [value_positions, List.filter_cons, hbne, if_true, List.filterMap_cons]
        cases hq : quotes kv.1 <;>
          simp only [Option.map_none', Option.map_some'] <;>
          simpa [value_positions] using ih

theorem summarize_fields (portfolio : List Portfolio) :
    (summarize portfolio).total_value = (portfolio.map (fun p => p.market_value)).sum ∧
    (summarize portfolio).total_cost
      = (portfolio.map (fun p => p.total_quantity * p.avg_price)).sum ∧
    (summarize portfolio).total_pnl
      = (summarize portfolio).total_value - (summarize portfolio).total_cost ∧
    (summarize portfolio).total_pnl_percentage
      = (if (summarize portfolio).total_cost = 0 then 0
         else (summarize portfolio).total_pnl / (summarize portfolio).total_cost * 100) ∧
    (summarize portfolio).positions_count = portfolio.length := by
  cases portfolio with
  | nil => simp [summarize]
  | cons p rest =>
    by_cases htc : ((p :: rest).map (fun q => q.total_quantity * q.avg_price)).sum = 0 <;>
      simp [summarize, htc]

/-- Claim C1: for every sequence of one owner's trades, the aggregation of
`get_portfolio` computes, per symbol, `total_quantity` and `total_cost` by
adding `(quantity, quantity * price)` for a `trade_type` equal to `"buy"`
case-insensitively, subtracting them for `"sell"` case-insensitively, and
leaving both accumulators unchanged for any other `trade_type` (the fold is a
total function, so no error is raised); the resulting mapping contains exactly
the symbols whose `total_quantity` is strictly positive. -/
theorem aggregation_computes_filtered_sums (trades : List Trade) (s : String) :
    lookupPos s (activePositions trades) =
      if 0 < spec_total_quantity trades s
      then some ⟨spec_total_quantity trades s, spec_total_cost trades s⟩
      else none :=
  lookupPos_activePositions trades s

/-- Claim C2: aggregation is order-independent — any permutation of the trade
sequence yields an identical symbol-to-Position mapping, both before and after
the `total_quantity > 0` output filter. -/
theorem aggregation_order_independent (l₁ l₂ : List Trade) (h : l₁.Perm l₂) (s : String) :
    lookupPos s (calcPositions l₁) = lookupPos s (calcPositions l₂) ∧
    lookupPos s (activePositions l₁) = lookupPos s (activePositions l₂) := by
  have hq : spec_total_quantity l₁ s = spec_total_quantity l₂ s :=
    List.Perm.sum_eq (List.Perm.map _ (List.Perm.filter _ h))
  have hc : spec_total_cost l₁ s = spec_total_cost l₂ s :=
    List.Perm.sum_eq (List.Perm.map _ (List.Perm.filter _ h))
  have hany : l₁.any (fun t => t.symbol == s) = l₂.any (fun t => t.symbol == s) := by
    cases h2 : l₂.any (fun t => t.symbol == s)
    · rw [List.any_eq_false] at h2 ⊢
      intro x hx
      exact h2 x (h.mem_iff.mp hx)
    · rw [List.any_eq_true] at h2 ⊢
      obtain ⟨x, hx, hpx⟩ := h2
      exact ⟨x, h.mem_iff.mpr hx, hpx⟩
  constructor
  · rw [lookupPos_calcPositions, lookupPos_calcPositions, hq, hc, hany]
  · rw [lookupPos_activePositions, lookupPos_activePositions, hq, hc]

theorem aggregation_order_independent_witness :
    (([⟨"u", "AAPL", 1, 2, "buy", 0⟩, ⟨"u", "MSFT", 3, 4, "sell", 0⟩] : List Trade).Perm
      [⟨"u", "MSFT", 3, 4, "sell", 0⟩, ⟨"u", "AAPL", 1, 2, "buy", 0⟩]) ∧
    (lookupPos "AAPL"
        (calcPositions [⟨"u", "AAPL", 1, 2, "buy", 0⟩, ⟨"u", "MSFT", 3, 4, "sell", 0⟩]) =
      lookupPos "AAPL"
        (calcPositions [⟨"u", "MSFT", 3, 4, "sell", 0⟩, ⟨"u", "AAPL", 1, 2, "buy", 0⟩]) ∧
     lookupPos "AAPL"
        (activePositions [⟨"u", "AAPL", 1, 2, "buy", 0⟩, ⟨"u", "MSFT", 3, 4, "sell", 0⟩]) =
      lookupPos "AAPL"
        (activePositions [⟨"u", "MSFT", 3, 4, "sell", 0⟩, ⟨"u", "AAPL", 1, 2, "buy", 0⟩])) := by
  have hp : ([⟨"u", "AAPL", 1, 2, "buy", 0⟩, ⟨"u", "MSFT", 3, 4, "sell", 0⟩] : List Trade).Perm
      [⟨"u", "MSFT", 3, 4, "sell", 0⟩, ⟨"u", "AAPL", 1, 2, "buy", 0⟩] := by decide
  exact ⟨hp, aggregation_order_independent _ _ hp "AAPL"⟩

/-- Claim C3: valuation produces a `Portfolio` entry only for symbols whose
quote is present: a symbol with no quote is entirely omitted from the output
(so it contributes to no `Summary` total — dropping it from the positions
changes neither the output nor its summary), and the computation is a total
function, so absence never raises. -/
theorem valuation_omits_missing_quotes (active : List (String × Position))
    (quotes : String → Option StockPrice) (s : String) (h : quotes s = none) :
    (∀ e ∈ value_positions active quotes, e.symbol ≠ s) ∧
    value_positions active quotes =
      value_positions (active.filter (fun kv => kv.1 != s)) quotes ∧
    summarize (value_positions active quotes) =
      summarize (value_positions (active.filter (fun kv => kv.1 != s)) quotes) :=
  ⟨(value_positions_missing active quotes s h).1,
   (value_positions_missing active quotes s h).2,
   by rw [(value_positions_missing active quotes s h).2]⟩

theorem valuation_omits_missing_quotes_witness :
    ((fun _ : String => (none : Option StockPrice)) "AAPL" = none) ∧
    ((∀ e ∈ value_positions [("AAPL", ⟨1, 1⟩)] (fun _ : String => none), e.symbol ≠ "AAPL") ∧
     value_positions [("AAPL", ⟨1, 1⟩)] (fun _ : String => none) =
       value_positions (([("AAPL", ⟨1, 1⟩)] : List (String × Position)).filter
         (fun kv => kv.1 != "AAPL")) (fun _ : String => none) ∧
     summarize (value_positions [("AAPL", ⟨1, 1⟩)] (fun _ : String => none)) =
       summarize (value_positions (([("AAPL", ⟨1, 1⟩)] : List (String × Position)).filter
         (fun kv => kv.1 != "AAPL")) (fun _ : String => none))) :=
  ⟨rfl, valuation_omits_missing_quotes [("AAPL", ⟨1, 1⟩)] (fun _ => none) "AAPL" rfl⟩

/-- Claim C4: the summary satisfies `total_value = Σ market_value`,
`total_cost = Σ (total_quantity * avg_price)`,
`total_pnl = total_value - total_cost`,
`total_pnl_percentage = total_pnl / total_cost * 100` (`0` when `total_cost`
is `0`), `positions_count` = number of emitted entries; for zero entries it is
the all-zero record; and the summary query equals summarizing the portfolio
query computed from the same trades and quotes. -/
theorem summary_consistent_with_portfolio (trades : List Trade)
    (quotes : String → Option StockPrice) :
    (get_portfolio_summary trades quotes).total_value
      = ((get_portfolio trades quotes).map (fun p => p.market_value)).sum ∧
    (get_portfolio_summary trades quotes).total_cost
      = ((get_portfolio trades quotes).map (fun p => p.total_quantity * p.avg_price)).sum ∧
    (get_portfolio_summary trades quotes).total_pnl
      = (get_portfolio_summary trades quotes).total_value
        - (get_portfolio_summary trades quotes).total_cost ∧
    (get_portfolio_summary trades quotes).total_pnl_percentage
      = (if (get_portfolio_summary trades quotes).total_cost = 0 then 0
         else (get_portfolio_summary trades quotes).total_pnl
           / (get_portfolio_summary trades quotes).total_cost * 100) ∧
    (get_portfolio_summary trades quotes).positions_count
      = (get_portfolio trades quotes).length ∧
    summarize ([] : List Portfolio) = ⟨0, 0, 0, 0, 0⟩ ∧
    get_portfolio_summary trades quotes = summarize (get_portfolio trades quotes) := by
  refine ⟨(summarize_fields _).1, (summarize_fields _).2.1, (summarize_fields _).2.2.1,
    (summarize_fields _).2.2.2.1, (summarize_fields _).2.2.2.2, by simp [summarize], rfl⟩

/-- Claim C5: every entry `get_portfolio` emits comes from a position with
`total_quantity > 0` (the aggregator's output filter), its `avg_price` is the
well-defined quotient of the cost basis (`market_value - pnl`) by that
positive quantity — so `avg_price * total_quantity` recovers the cost basis
without any division by zero — and a zero cost basis yields
`pnl_percentage = 0` rather than a fault. -/
theorem valuation_division_safe (trades : List Trade)
    (quotes : String → Option StockPrice) (e : Portfolio)
    (h : e ∈ get_portfolio trades quotes) :
    0 < e.total_quantity ∧
    e.avg_price * e.total_quantity = e.market_value - e.pnl ∧
    (e.market_value - e.pnl = 0 → e.pnl_percentage = 0) := by
  have h' : e ∈ (activePositions trades).filterMap
      (fun kv => (quotes kv.1).map (valueEntry kv.1 kv.2)) := h
  obtain ⟨kv, hkv, hmap⟩ := List.mem_filterMap.mp h'
  have hpos : 0 < kv.2.total_quantity := by
    have h2 := (List.mem_filter.mp hkv).2
    simpa using h2
  cases hq : quotes kv.1 with
  | none => rw [hq] at hmap; exact Option.noConfusion hmap
  | some q =>
    rw [hq] at hmap
    obtain rfl : valueEntry kv.1 kv.2 q = e := Option.some.inj hmap
    have hqnt : (valueEntry kv.1 kv.2 q).total_quantity = kv.2.total_quantity := rfl
    have hmv : (valueEntry kv.1 kv.2 q).market_value
        = kv.2.total_quantity * q.current_price := rfl
    have hpnl : (valueEntry kv.1 kv.2 q).pnl
        = kv.2.total_quantity * q.current_price - kv.2.total_cost := rfl
    have havg : (valueEntry kv.1 kv.2 q).avg_price
        = (if kv.2.total_quantity ≠ 0
           then kv.2.total_cost / kv.2.total_quantity else 0) := rfl
    have hpct : (valueEntry kv.1 kv.2 q).pnl_percentage
        = (if kv.2.total_cost ≠ 0
           then (kv.2.total_quantity * q.current_price - kv.2.total_cost)
             / kv.2.total_cost * 100
           else 0) := rfl
    have hcost : (valueEntry kv.1 kv.2 q).market_value - (valueEntry kv.1 kv.2 q).pnl
        = kv.2.total_cost := by
      rw [hmv, hpnl]; ring
    refine ⟨hqnt ▸ hpos, ?_, ?_⟩
    · rw [havg, hqnt, hcost, if_pos (ne_of_gt hpos)]
      exact div_mul_cancel₀ kv.2.total_cost (ne_of_gt hpos)
    · intro hz
      rw [hcost] at hz
      rw [hpct, if_neg (by simpa using hz)]

theorem valuation_division_safe_witness :
    ((⟨"AAPL", 10, 0, 5, 50, 50, 0⟩ : Portfolio) ∈
      get_portfolio [⟨"u", "AAPL", 10, 0, "buy", 0⟩]
        (fun s => if s = "AAPL" then some ⟨5, 1, 25, 1000⟩ else none)) ∧
    (0 < (⟨"AAPL", 10, 0, 5, 50, 50, 0⟩ : Portfolio).total_quantity ∧
     (⟨"AAPL", 10, 0, 5, 50, 50, 0⟩ : Portfolio).avg_price
         * (⟨"AAPL", 10, 0, 5, 50, 50, 0⟩ : Portfolio).total_quantity
       = (⟨"AAPL", 10, 0, 5, 50, 50, 0⟩ : Portfolio).market_value
         - (⟨"AAPL", 10, 0, 5, 50, 50, 0⟩ : Portfolio).pnl ∧
     ((⟨"AAPL", 10, 0, 5, 50, 50, 0⟩ : Portfolio).market_value
         - (⟨"AAPL", 10, 0, 5, 50, 50, 0⟩ : Portfolio).pnl = 0 →
       (⟨"AAPL", 10, 0, 5, 50, 50, 0⟩ : Portfolio).pnl_percentage = 0)) := by
  have hmem : (⟨"AAPL", 10, 0, 5, 50, 50, 0⟩ : Portfolio) ∈
      get_portfolio [⟨"u", "AAPL", 10, 0, "buy", 0⟩]
        (fun s => if s = "AAPL" then some ⟨5, 1, 25, 1000⟩ else none) := by
    norm_num +decide [get_portfolio, value_positions, activePositions, calcPositions,
      upsertPosition, applyTradeType, valueEntry, List.filterMap_cons]
  exact ⟨hmem, valuation_division_safe _ _ _ hmem⟩

/-- Claim C6: watchlist enrichment emits one entry per watchlist item, in
order, and for a symbol absent from the quote mapping the price fields
(`current_price`, `change`, `change_percent`) are explicitly `none` while the
entry itself is kept — the opposite of the valuation engine's omission
policy; when a quote is present the fields carry its values. -/
theorem watchlist_enrichment_null_fields (watchlist : List WatchlistItem)
    (quotes : String → Option StockPrice) :
    (get_watchlist watchlist quotes).map (fun e => e.symbol)
      = watchlist.map (fun item => item.symbol) ∧
    ∀ e ∈ get_watchlist watchlist quotes,
      (quotes e.symbol = none →
        e.current_price = none ∧ e.change = none ∧ e.change_percent = none) ∧
      (∀ q, quotes e.symbol = some q →
        e.current_price = some q.current_price ∧ e.change = some q.change ∧
        e.change_percent = some q.change_percent) := by
  constructor
  · simp [get_watchlist, List.map_map, Function.comp]
  · intro e he
    obtain ⟨item, hitem, rfl⟩ := List.mem_map.mp he
    constructor
    · intro hq
      refine ⟨?_, ?_, ?_⟩ <;> simp [show quotes item.symbol = none from hq]
    · intro q hq
      refine ⟨?_, ?_, ?_⟩ <;> simp [show quotes item.symbol = some q from hq]

/-- Claim C7: after `close_position` for `(owner, symbol)` no trade of that
owner for the uppercased symbol remains; every other trade survives exactly
when it was in the store; and the next aggregation over the owner's (capped)
fetched trades contains no position for that symbol. -/
theorem close_position_removes_symbol (store : List Trade) (uid sym : String) :
    (∀ t ∈ (close_position store uid sym).1,
      ¬(t.user_id = uid ∧ t.symbol = strUpper sym)) ∧
    (∀ t : Trade, ¬(t.user_id = uid ∧ t.symbol = strUpper sym) →
      (t ∈ (close_position store uid sym).1 ↔ t ∈ store)) ∧
    lookupPos (strUpper sym)
      (activePositions ((tradesOf (close_position store uid sym).1 uid).take 1000)) = none := by
  refine ⟨?_, ?_, ?_⟩
  · intro t ht hmatch
    have hpred := (List.mem_filter.mp ht).2
    simp [hmatch.1, hmatch.2] at hpred
  · intro t hmatch
    constructor
    · intro ht; exact (List.mem_filter.mp ht).1
    · intro ht
      refine List.mem_filter.mpr ⟨ht, ?_⟩
      by_cases hs : t.symbol = strUpper sym
      · have hu : ¬ t.user_id = uid := fun hu => hmatch ⟨hu, hs⟩
        simp [hs, hu]
      · simp [hs]
  · have hany : ((tradesOf (close_position store uid sym).1 uid).take 1000).any
        (fun t => t.symbol == strUpper sym) = false := by
      rw [List.any_eq_false]
      intro t ht hb
      have ht1 : t ∈ tradesOf (close_position store uid sym).1 uid :=
        List.take_subset _ _ ht
      have huid : t.user_id = uid := by
        have h2 := (List.mem_filter.mp ht1).2
        simpa using h2
      have ht2 : t ∈ (close_position store uid sym).1 := (List.mem_filter.mp ht1).1
      have hpred := (List.mem_filter.mp ht2).2
      have hs : t.symbol = strUpper sym := by simpa using hb
      simp [hs, huid] at hpred
    rw [lookupPos_activePositions, spec_total_quantity_eq_zero _ _ hany]
    simp

/-- Claim C8: every symbol entering the system is normalized to uppercase
before it is used as a map key: `create_trade` stores the uppercased symbol,
`add_to_watchlist` both checks and stores the uppercased symbol, and the batch
quote endpoint issues its request with uppercased symbols. -/
theorem symbols_uppercased_at_boundaries (uid newId symbol : String) (now : Int)
    (tc : TradeCreate) (watchlist : List WatchlistItem) (symbols : List String) :
    (create_trade uid tc).symbol = strUpper tc.symbol ∧
    (∀ w, add_to_watchlist watchlist uid newId symbol now = some w →
      w.symbol = strUpper symbol ∧ w.user_id = uid) ∧
    (add_to_watchlist watchlist uid newId symbol now = none ↔
      ∃ w ∈ watchlist, w.symbol = strUpper symbol ∧ w.user_id = uid) ∧
    get_multiple_stocks_request symbols = symbols.map strUpper := by
  refine ⟨rfl, ?_, ?_, rfl⟩
  · intro w hw
    by_cases hdup : watchlist.any (fun w => w.symbol == strUpper symbol && w.user_id == uid)
    · rw [add_to_watchlist, if_pos hdup] at hw
      exact Option.noConfusion hw
    · rw [add_to_watchlist, if_neg hdup] at hw
      obtain rfl := Option.some.inj hw
      exact ⟨rfl, rfl⟩
  · by_cases hdup : watchlist.any (fun w => w.symbol == strUpper symbol && w.user_id == uid)
    · rw [add_to_watchlist, if_pos hdup]
      obtain ⟨w, hw, hpw⟩ := List.any_eq_true.mp hdup
      have hps : w.symbol = strUpper symbol ∧ w.user_id = uid := by simpa using hpw
      exact iff_of_true rfl ⟨w, hw, hps⟩
    · rw [add_to_watchlist, if_neg hdup]
      constructor
      · intro h
        exact Option.noConfusion h
      · intro hex
        obtain ⟨w, hw, hws, hwu⟩ := hex
        exact absurd (List.any_eq_true.mpr ⟨w, hw, by simp [hws, hwu]⟩) hdup

/-- Claim C9 counterexample: `create_trade` accepts a submission with
quantity `-1`, price `0` and trade_type `"hold"` — the stored record violates
"strictly positive quantity and price, trade_type in {buy, sell}". -/
theorem trade_validation_counterexample :
    ¬ (0 < (create_trade "u" ⟨"aapl", -1, 0, "hold", 0⟩).quantity ∧
       0 < (create_trade "u" ⟨"aapl", -1, 0, "hold", 0⟩).price ∧
       ((create_trade "u" ⟨"aapl", -1, 0, "hold", 0⟩).trade_type = "buy" ∨
        (create_trade "u" ⟨"aapl", -1, 0, "hold", 0⟩).trade_type = "sell")) := by
  intro h
  have h1 : (0 : ℚ) < -1 := h.1
  norm_num at h1

/-- Claim C9 as amended: trade submission applies no validation — the stored
record preserves the submitted quantity, price, trade_type and trade_date
verbatim (only the symbol is transformed, by uppercasing) for every
submission, including non-positive quantities or prices and trade_types
outside {buy, sell}. -/
theorem trade_submission_preserves_input (uid : String) (tc : TradeCreate) :
    (create_trade uid tc).user_id = uid ∧
    (create_trade uid tc).symbol = strUpper tc.symbol ∧
    (create_trade uid tc).quantity = tc.quantity ∧
    (create_trade uid tc).price = tc.price ∧
    (create_trade uid tc).trade_type = tc.trade_type ∧
    (create_trade uid tc).trade_date = tc.trade_date :=
  ⟨rfl, rfl, rfl, rfl, rfl, rfl⟩

/-- Claim C10: the portfolio query reads at most the first 1000 of the owner's
trades in store order, the trade listing returns at most 1000 records and the
watchlist query at most 100; and once an owner already has 1000 fetched
trades, any trades appended later in the store change neither the fetched
slice nor the portfolio nor the summary. -/
theorem query_read_caps (store extra : List Trade) (wstore : List WatchlistItem)
    (uid : String) (quotes : String → Option StockPrice)
    (h : 1000 ≤ (tradesOf store uid).length) :
    (get_trades_route store uid).length ≤ 1000 ∧
    (get_watchlist_route wstore uid quotes).length ≤ 100 ∧
    ((tradesOf store uid).take 1000).length ≤ 1000 ∧
    (tradesOf (store ++ extra) uid).take 1000 = (tradesOf store uid).take 1000 ∧
    get_portfolio_route (store ++ extra) uid quotes = get_portfolio_route store uid quotes ∧
    get_portfolio_summary_route (store ++ extra) uid quotes
      = get_portfolio_summary_route store uid quotes := by
  have htake : (tradesOf (store ++ extra) uid).take 1000 = (tradesOf store uid).take 1000 := by
    rw [show tradesOf (store ++ extra) uid = tradesOf store uid ++ tradesOf extra uid from
      List.filter_append _ _, List.take_append_of_le_length h]
  refine ⟨?_, ?_, ?_, htake, ?_, ?_⟩
  · rw [get_trades_route, List.length_take]
    exact min_le_left _ _
  · rw [get_watchlist_route, get_watchlist, List.length_map, List.length_take]
    exact min_le_left _ _
  · rw [List.length_take]
    exact min_le_left _ _
  · rw [get_portfolio_route, get_portfolio_route, htake]
  · rw [get_portfolio_summary_route, get_portfolio_summary_route,
      get_portfolio_route, get_portfolio_route, htake]

theorem query_read_caps_witness :
    1000 ≤ (tradesOf (List.replicate 1000 (⟨"u", "AAPL", 1, 1, "buy", 0⟩ : Trade)) "u").length ∧
    ((get_trades_route (List.replicate 1000 (⟨"u", "AAPL", 1, 1, "buy", 0⟩ : Trade)) "u").length
        ≤ 1000 ∧
     (get_watchlist_route [] "u" (fun _ : String => none)).length ≤ 100 ∧
     ((tradesOf (List.replicate 1000 (⟨"u", "AAPL", 1, 1, "buy", 0⟩ : Trade)) "u").take
        1000).length ≤ 1000 ∧
     (tradesOf (List.replicate 1000 (⟨"u", "AAPL", 1, 1, "buy", 0⟩ : Trade)
        ++ [⟨"u", "MSFT", 2, 2, "buy", 0⟩]) "u").take 1000
       = (tradesOf (List.replicate 1000 (⟨"u", "AAPL", 1, 1, "buy", 0⟩ : Trade)) "u").take 1000 ∧
     get_portfolio_route (List.replicate 1000 (⟨"u", "AAPL", 1, 1, "buy", 0⟩ : Trade)
        ++ [⟨"u", "MSFT", 2, 2, "buy", 0⟩]) "u" (fun _ : String => none)
       = get_portfolio_route (List.replicate 1000 (⟨"u", "AAPL", 1, 1, "buy", 0⟩ : Trade)) "u"
           (fun _ : String => none) ∧
     get_portfolio_summary_route (List.replicate 1000 (⟨"u", "AAPL", 1, 1, "buy", 0⟩ : Trade)
        ++ [⟨"u", "MSFT", 2, 2, "buy", 0⟩]) "u" (fun _ : String => none)
       = get_portfolio_summary_route (List.replicate 1000 (⟨"u", "AAPL", 1, 1, "buy", 0⟩ : Trade))
           "u" (fun _ : String => none)) := by
  have h : 1000 ≤
      (tradesOf (List.replicate 1000 (⟨"u", "AAPL", 1, 1, "buy", 0⟩ : Trade)) "u").length := by
    have hpa : ((⟨"u", "AAPL", 1, 1, "buy", 0⟩ : Trade).user_id == "u") = true := by decide
    rw [tradesOf, List.filter_replicate, if_pos hpa, List.length_replicate]
  exact ⟨h, query_read_caps _ _ _ _ _ h⟩
